import Mathlib

/-!
Verification development for the Remorph backend's Forensic Feature &
Attribution Engine.  Python sources are shallowly embedded: dictionaries
become association lists, floats become `ℚ` (or `ℝ` where the source calls
`math.sqrt` / `np.exp`), stateful methods become explicit state-passing
functions, and code paths that raise-and-catch are modelled by the state
actually reached when the exception is caught.
-/

namespace Remorph

/-! ## Data model (backend/src/trace/attribution.py)

A feature vector is a Python dict `{key: float}`; we embed it as an
association list whose keys are unique (a Python dict invariant), read with
`List.lookup`. -/

abbrev FeatVec := List (String × ℚ)

/-- One attribution family record, as stored in the fingerprints database:
`{"name": ..., "features_mean": {...}, "sample_count": ..., "last_updated": ...}`. -/
structure Family where
  name : String
  features_mean : FeatVec
  sample_count : ℕ
  last_updated : Option String
deriving DecidableEq

/-- The fingerprints database document `{"version": 1, "families": [...]}`. -/
structure DB where
  version : ℕ
  families : List Family
deriving DecidableEq

/-- The default database built by `AttributionIndex._create_default_db`,
with the three seed families and their hand-set prior mean vectors. -/
def defaultDB : DB :=
  { version := 1
    families :=
      [ { name := "faceswap_blend"
          features_mean :=
            [("fft_high_ratio", 62/100), ("ela_mean", 18), ("lap_var", 120), ("jpeg_score", 55/100)]
          sample_count := 0
          last_updated := none }
      , { name := "diffusion_inpaint"
          features_mean :=
            [("fft_high_ratio", 68/100), ("ela_mean", 12), ("lap_var", 160), ("jpeg_score", 35/100)]
          sample_count := 0
          last_updated := none }
      , { name := "stylegan_family"
          features_mean :=
            [("fft_high_ratio", 75/100), ("ela_mean", 95/10), ("lap_var", 180), ("jpeg_score", 4/10)]
          sample_count := 0
          last_updated := none } ] }

/-- The state of the fingerprints file a constructed `AttributionIndex` finds:
absent, present but not parseable as JSON (or unreadable), or a parsed
database. -/
inductive FileState where
  | missing : FileState
  | corrupt : FileState
  | valid : DB → FileState
deriving DecidableEq

/-- `AttributionIndex._load` (run by the constructor).  Returns the in-memory
database together with the list of save attempts performed (the payload passed
to `_save`).  The missing and corrupt branches both fall back to
`_create_default_db`, which also persists the default database; no branch
raises (every exception is caught), which the totality of this function
reflects. -/
def load : FileState → DB × List DB
  | FileState.missing => (defaultDB, [defaultDB])
  | FileState.corrupt => (defaultDB, [defaultDB])
  | FileState.valid db => (db, [])

/-- `AttributionIndex.all_families`: returns the family names in storage
order.  The method only reads `self.db`, so the state component is returned
untouched. -/
def all_families (db : DB) : DB × List String :=
  (db, db.families.map Family.name)

/-- `AttributionIndex.get_family_stats` result value. -/
structure FamilyStats where
  total_families : ℕ
  total_samples : ℕ
  families : List (String × ℕ × Option String)
deriving DecidableEq

/-- `AttributionIndex.get_family_stats`: aggregates counts; reads only. -/
def get_family_stats (db : DB) : DB × FamilyStats :=
  (db,
    { total_families := db.families.length
      total_samples := (db.families.map Family.sample_count).sum
      families := db.families.map (fun f => (f.name, f.sample_count, f.last_updated)) })

/-! ## AttributionIndex.add_sample

The source method references `datetime.now()`, but `attribution.py` never
imports `datetime`; evaluating it raises `NameError`, which the enclosing
`except Exception` catches, making the method return `False`.

* New-family branch: the `NameError` is raised while the new family dict
  literal is being built (its `"last_updated"` value), so nothing is appended
  to `self.db["families"]` and the database is unchanged.
* Existing-family branch: `features_mean` and `sample_count` are assigned
  before the `last_updated` line raises, so those mutations survive;
  `last_updated` keeps its old value and `_save` is never reached.

The third component of the result records the save attempts made (payloads
passed to `_save`); with the `NameError` it is always empty. -/

/-- Python dict assignment `d[k] = v` when `k` is already a key of `d`:
replace the value at the first binding of `k`. -/
def setKey : FeatVec → String → ℚ → FeatVec
  | [], _, _ => []
  | (k', v') :: rest, k, v =>
    if k' == k then (k', v) :: rest else (k', v') :: setKey rest k v

/-- One iteration of the update loop in `add_sample` for an existing family:
`current_features[key] += (value - current_features[key]) / (n + 1)` when the
key is present, `current_features[key] = value` otherwise (Python dicts append
new keys at the end). -/
def dictStep (n : ℕ) (cur : FeatVec) (kv : String × ℚ) : FeatVec :=
  match cur.lookup kv.1 with
  | some old => setKey cur kv.1 (old + (kv.2 - old) / (n + 1))
  | none => cur ++ [kv]

/-- The in-place mutation `add_sample` performs on an existing family before
the `last_updated` assignment raises `NameError`: incremental-mean update of
`features_mean` and increment of `sample_count`. -/
def updFamily (fam : Family) (features : FeatVec) : Family :=
  { fam with
    features_mean := features.foldl (dictStep fam.sample_count) fam.features_mean
    sample_count := fam.sample_count + 1 }

/-- The `for f in self.db["families"]` search-and-mutate: update the first
family with the given name, `none` when no family matches. -/
def updateFirst (name : String) (features : FeatVec) : List Family → Option (List Family)
  | [] => none
  | f :: rest =>
    if f.name == name then some (updFamily f features :: rest)
    else (updateFirst name features rest).map (f :: ·)

/-- `AttributionIndex.add_sample`.  Result: (returned boolean, database after
the call, save attempts).  Both branches hit the `datetime` `NameError`, so
the method always returns `False` and never reaches `self._save()`. -/
def add_sample (db : DB) (family_name : String) (features : FeatVec) :
    Bool × DB × List DB :=
  match updateFirst family_name features db.families with
  | none => (false, db, [])
  | some fams => (false, { db with families := fams }, [])

/-- Repeated `add_sample` calls with the same family name, keeping the
mutated database between calls. -/
def addMany (db : DB) (family_name : String) (samples : List FeatVec) : DB :=
  samples.foldl (fun d s => (add_sample d family_name s).2.1) db

/-- Modelled from the spec (§4.4, §8): the full arithmetic mean, recomputed
over all values contributed for a key across a sample history.  Used only to
compare the source's incremental update against the spec's wording. -/
def fullRecomputeMean (samples : List FeatVec) (k : String) : Option ℚ :=
  let vs := samples.filterMap (fun s => s.lookup k)
  if vs.isEmpty then none else some (vs.sum / vs.length)

/-! ## Dictionary lemmas for the incremental-mean update -/

theorem lookup_setKey_ne (k k' : String) (v : ℚ) (h : k' ≠ k) :
    ∀ l : FeatVec, (setKey l k v).lookup k' = l.lookup k' := by
  intro l
  induction l with
  | nil => rfl
  | cons p rest ih =>
    obtain ⟨k₀, v₀⟩ := p
    by_cases hk : k₀ = k
    · subst hk
      have h2 : (k' == k₀) = false := by simp [h]
      simp [setKey, List.lookup_cons, h2]
    · have h1 : (k₀ == k) = false := by simp [hk]
      by_cases hk' : k' = k₀
      · subst hk'
        simp [setKey, h1, List.lookup_cons]
      · have h2 : (k' == k₀) = false := by simp [hk']
        simp [setKey, h1, List.lookup_cons, h2, ih]

theorem lookup_setKey_self (k : String) (v m : ℚ) :
    ∀ l : FeatVec, l.lookup k = some m → (setKey l k v).lookup k = some v := by
  intro l
  induction l with
  | nil => intro h; simp [List.lookup] at h
  | cons p rest ih =>
    obtain ⟨k₀, v₀⟩ := p
    intro h
    by_cases hk : k₀ = k
    · subst hk
      simp [setKey, List.lookup_cons]
    · have h1 : (k₀ == k) = false := by simp [hk]
      have h2 : (k == k₀) = false := by simp [Ne.symm hk]
      simp only [List.lookup_cons, h2] at h
      simp [setKey, h1, List.lookup_cons, h2, ih h]

theorem lookup_append_single_ne (k k' : String) (v : ℚ) (h : k ≠ k') :
    ∀ l : FeatVec, (l ++ [(k', v)]).lookup k = l.lookup k := by
  intro l
  have hb : (k == k') = false := by simp [h]
  induction l with
  | nil => simp [List.lookup, hb]
  | cons p rest ih =>
    obtain ⟨k₀, v₀⟩ := p
    cases hk : (k == k₀) <;> simp [List.lookup_cons, hk, ih]

theorem lookup_append_single_self (k : String) (v : ℚ) :
    ∀ l : FeatVec, l.lookup k = none → (l ++ [(k, v)]).lookup k = some v := by
  intro l
  induction l with
  | nil => intro _; simp [List.lookup]
  | cons p rest ih =>
    obtain ⟨k₀, v₀⟩ := p
    intro h
    cases hk : (k == k₀)
    · simp only [List.lookup_cons, hk] at h
      simp [List.lookup_cons, hk, ih h]
    · simp [List.lookup_cons, hk] at h

theorem dictStep_eq_setKey (n : ℕ) (cur : FeatVec) (k : String) (v m : ℚ)
    (hm : cur.lookup k = some m) :
    dictStep n cur (k, v) = setKey cur k (m + (v - m) / (n + 1)) := by
  unfold dictStep
  simp [hm]

theorem dictStep_eq_append (n : ℕ) (cur : FeatVec) (k : String) (v : ℚ)
    (hm : cur.lookup k = none) :
    dictStep n cur (k, v) = cur ++ [(k, v)] := by
  unfold dictStep
  simp [hm]

theorem dictStep_lookup_ne (n : ℕ) (cur : FeatVec) (k₀ : String) (v₀ : ℚ)
    (k : String) (h : k₀ ≠ k) :
    (dictStep n cur (k₀, v₀)).lookup k = cur.lookup k := by
  cases hl : cur.lookup k₀ with
  | some old =>
    rw [dictStep_eq_setKey n cur k₀ v₀ old hl]
    exact lookup_setKey_ne k₀ k _ (Ne.symm h) cur
  | none =>
    rw [dictStep_eq_append n cur k₀ v₀ hl]
    exact lookup_append_single_ne k k₀ v₀ (Ne.symm h) cur

theorem foldl_dictStep_lookup_notmem (n : ℕ) (k : String) :
    ∀ (s : FeatVec) (cur : FeatVec), (∀ p ∈ s, p.1 ≠ k) →
      (s.foldl (dictStep n) cur).lookup k = cur.lookup k := by
  intro s
  induction s with
  | nil => intro cur _; rfl
  | cons p rest ih =>
    intro cur h
    obtain ⟨k₀, v₀⟩ := p
    have h1 : k₀ ≠ k := h (k₀, v₀) (List.mem_cons_self _ rest)
    have h2 : ∀ q ∈ rest, q.1 ≠ k := fun q hq => h q (List.mem_cons_of_mem _ hq)
    simp only [List.foldl_cons]
    rw [ih (dictStep n cur (k₀, v₀)) h2, dictStep_lookup_ne n cur k₀ v₀ k h1]

theorem nodup_head_rest {k₀ : String} {v₀ : ℚ} {rest : FeatVec}
    (hnd : (((k₀, v₀) :: rest).map Prod.fst).Nodup) : ∀ q ∈ rest, q.1 ≠ k₀ := by
  simp only [List.map_cons, List.nodup_cons] at hnd
  intro q hq he
  exact hnd.1 (he ▸ List.mem_map_of_mem Prod.fst hq)

theorem nodup_rest {k₀ : String} {v₀ : ℚ} {rest : FeatVec}
    (hnd : (((k₀, v₀) :: rest).map Prod.fst).Nodup) : (rest.map Prod.fst).Nodup := by
  simp only [List.map_cons, List.nodup_cons] at hnd
  exact hnd.2

theorem foldl_dictStep_lookup_shared (n : ℕ) (k : String) :
    ∀ (s : FeatVec) (v : ℚ) (cur : FeatVec) (m : ℚ),
      s.lookup k = some v → (s.map Prod.fst).Nodup → cur.lookup k = some m →
      (s.foldl (dictStep n) cur).lookup k = some (m + (v - m) / (n + 1)) := by
  intro s
  induction s with
  | nil => intro v cur m h _ _; simp [List.lookup] at h
  | cons p rest ih =>
    intro v cur m hv hnd hm
    obtain ⟨k₀, v₀⟩ := p
    by_cases hkk : k = k₀
    · subst hkk
      have hv' : v₀ = v := by simpa [List.lookup_cons] using hv
      subst hv'
      have hstep : (dictStep n cur (k, v₀)).lookup k
          = some (m + (v₀ - m) / (n + 1)) := by
        rw [dictStep_eq_setKey n cur k v₀ m hm]
        exact lookup_setKey_self k _ m cur hm
      simp only [List.foldl_cons]
      rw [foldl_dictStep_lookup_notmem n k rest _ (nodup_head_rest hnd), hstep]
    · have hbe : (k == k₀) = false := by simp [hkk]
      have hv' : rest.lookup k = some v := by simpa [List.lookup_cons, hbe] using hv
      simp only [List.foldl_cons]
      exact ih v (dictStep n cur (k₀, v₀)) m hv' (nodup_rest hnd)
        (by rw [dictStep_lookup_ne n cur k₀ v₀ k (Ne.symm hkk)]; exact hm)

theorem foldl_dictStep_lookup_new (n : ℕ) (k : String) :
    ∀ (s : FeatVec) (v : ℚ) (cur : FeatVec),
      s.lookup k = some v → (s.map Prod.fst).Nodup → cur.lookup k = none →
      (s.foldl (dictStep n) cur).lookup k = some v := by
  intro s
  induction s with
  | nil => intro v cur h _ _; simp [List.lookup] at h
  | cons p rest ih =>
    intro v cur hv hnd hm
    obtain ⟨k₀, v₀⟩ := p
    by_cases hkk : k = k₀
    · subst hkk
      have hv' : v₀ = v := by simpa [List.lookup_cons] using hv
      subst hv'
      have hstep : (dictStep n cur (k, v₀)).lookup k = some v₀ := by
        rw [dictStep_eq_append n cur k v₀ hm]
        exact lookup_append_single_self k v₀ cur hm
      simp only [List.foldl_cons]
      rw [foldl_dictStep_lookup_notmem n k rest _ (nodup_head_rest hnd), hstep]
    · have hbe : (k == k₀) = false := by simp [hkk]
      have hv' : rest.lookup k = some v := by simpa [List.lookup_cons, hbe] using hv
      simp only [List.foldl_cons]
      exact ih v (dictStep n cur (k₀, v₀)) hv' (nodup_rest hnd)
        (by rw [dictStep_lookup_ne n cur k₀ v₀ k (Ne.symm hkk)]; exact hm)

theorem updateFirst_of_find? (name : String) (s : FeatVec) :
    ∀ (l : List Family) (fam : Family),
      l.find? (fun f => f.name == name) = some fam →
      ∃ l', updateFirst name s l = some l'
        ∧ l'.find? (fun f => f.name == name) = some (updFamily fam s) := by
  intro l
  induction l with
  | nil => intro fam h; simp at h
  | cons f rest ih =>
    intro fam h
    cases hb : (f.name == name)
    · rw [List.find?_cons_of_neg _ (by simp [hb])] at h
      obtain ⟨rest', h1, h2⟩ := ih fam h
      refine ⟨f :: rest', ?_, ?_⟩
      · simp [updateFirst, hb, h1]
      · rw [List.find?_cons_of_neg _ (by simp [hb])]; exact h2
    · rw [List.find?_cons_of_pos _ (by simp [hb])] at h
      injection h with h'
      subst h'
      refine ⟨updFamily f s :: rest, ?_, ?_⟩
      · simp [updateFirst, hb]
      · have hname : (updFamily f s).name = f.name := rfl
        rw [List.find?_cons_of_pos _ (by simp [hname, hb])]

theorem add_sample_find (db : DB) (name : String) (s : FeatVec) (fam : Family)
    (h : db.families.find? (fun f => f.name == name) = some fam) :
    (add_sample db name s).2.1.families.find? (fun f => f.name == name)
      = some (updFamily fam s) := by
  obtain ⟨l', h1, h2⟩ := updateFirst_of_find? name s db.families fam h
  simp [add_sample, h1, h2]

theorem addMany_find (name : String) :
    ∀ (samples : List FeatVec) (db : DB) (fam : Family),
      db.families.find? (fun f => f.name == name) = some fam →
      (addMany db name samples).families.find? (fun f => f.name == name)
        = some (samples.foldl updFamily fam) := by
  intro samples
  induction samples with
  | nil => intro db fam h; exact h
  | cons s rest ih =>
    intro db fam h
    have h1 := add_sample_find db name s fam h
    simpa [addMany, List.foldl_cons] using ih (add_sample db name s).2.1 (updFamily fam s) h1

theorem foldl_updFamily_mean (k : String) :
    ∀ (samples : List FeatVec) (fam : Family) (m : ℚ),
      fam.features_mean.lookup k = some m →
      (∀ s ∈ samples, ∃ v, s.lookup k = some v) →
      (∀ s ∈ samples, (s.map Prod.fst).Nodup) →
      (samples.foldl updFamily fam).sample_count = fam.sample_count + samples.length
      ∧ ∃ r, (samples.foldl updFamily fam).features_mean.lookup k = some r
        ∧ r * ((fam.sample_count : ℚ) + samples.length)
            = (fam.sample_count : ℚ) * m + (samples.filterMap (fun s => s.lookup k)).sum := by
  intro samples
  induction samples with
  | nil =>
    intro fam m hm _ _
    exact ⟨rfl, m, hm, by simp [mul_comm]⟩
  | cons s rest ih =>
    intro fam m hm hk hnd
    obtain ⟨v, hv⟩ := hk s (List.mem_cons_self s rest)
    set n : ℕ := fam.sample_count with hn
    have hmean' : (updFamily fam s).features_mean.lookup k
        = some (m + (v - m) / (n + 1)) :=
      foldl_dictStep_lookup_shared n k s v fam.features_mean m hv
        (hnd s (List.mem_cons_self s rest)) hm
    have hcount' : (updFamily fam s).sample_count = n + 1 := rfl
    have hrest := ih (updFamily fam s) (m + (v - m) / (n + 1)) hmean'
      (fun t ht => hk t (List.mem_cons_of_mem s ht))
      (fun t ht => hnd t (List.mem_cons_of_mem s ht))
    obtain ⟨hct, r, hr, hreq⟩ := hrest
    rw [hcount'] at hct hreq
    simp only [List.foldl_cons]
    refine ⟨?_, r, hr, ?_⟩
    · rw [hct]
      simp [List.length_cons]
      omega
    · have hne : ((n : ℚ) + 1) ≠ 0 := by positivity
      have hmul : ((n : ℚ) + 1) * (m + (v - m) / (n + 1)) = n * m + v := by
        field_simp
        ring
      have hsum : ((s :: rest).filterMap (fun t => t.lookup k)).sum
          = v + (rest.filterMap (fun t => t.lookup k)).sum := by
        simp [List.filterMap_cons, hv]
      rw [hsum]
      have hlen : ((s :: rest).length : ℚ) = (rest.length : ℚ) + 1 := by
        simp [List.length_cons]
      rw [hlen]
      push_cast at hreq ⊢
      linear_combination hreq + hmul

theorem filterMap_lookup_length (k : String) :
    ∀ (samples : List FeatVec), (∀ s ∈ samples, ∃ v, s.lookup k = some v) →
      (samples.filterMap (fun s => s.lookup k)).length = samples.length := by
  intro samples
  induction samples with
  | nil => intro _; rfl
  | cons s rest ih =>
    intro h
    obtain ⟨v, hv⟩ := h s (List.mem_cons_self s rest)
    simp [List.filterMap_cons, hv, ih (fun t ht => h t (List.mem_cons_of_mem s ht))]

/-! ## Claim theorems: C1, C9, C10, C3 -/

/-- Claim C1 (refuted; code bug): `AddSample` on a family name that is not in
the database is claimed to create the family with `features_mean = features`
and `sample_count = 1` and to return success.  In the code, building the new
family record evaluates `datetime.now()` with `datetime` never imported, so a
`NameError` is raised and caught: the call returns `False` and the database
still has no family of that name — evaluated here on the default database and
a concrete feature vector. -/
theorem c1_new_family_never_created :
    (add_sample defaultDB "new_family" [("fft_high_ratio", 1/2)]).1 = false
    ∧ (add_sample defaultDB "new_family" [("fft_high_ratio", 1/2)]).2.1 = defaultDB
    ∧ (defaultDB.families.find? (fun f => f.name == "new_family")) = none := by
  refine ⟨rfl, rfl, ?_⟩
  decide

/-- Claim C9 (refuted; code bug): `add_sample` is claimed to persist before
returning success, and on failure to have made at least one write attempt.
Because the `datetime` `NameError` fires before `self._save()` in both
branches, every call returns `False` and the list of write attempts is empty:
no call ever succeeds and no write is ever attempted.  (That no exception
escapes the method is reflected by `add_sample` being a total function.) -/
theorem c9_add_sample_always_fails_without_write (db : DB) (name : String)
    (features : FeatVec) :
    (add_sample db name features).1 = false
    ∧ (add_sample db name features).2.2 = [] := by
  unfold add_sample
  cases updateFirst name features db.families <;> simp

/-- A one-family database used to exhibit the failure of C4's
full-recompute clause: family `fam` holds key `a` with prior mean 5 and
sample count 0. -/
def famC4 : Family :=
  { name := "fam", features_mean := [("a", 5)], sample_count := 0,
    last_updated := none }

def dbC4 : DB := { version := 1, families := [famC4] }

/-- Claim C4, counterexample to the claim as stated: contributing the sample
`{b: 1}` and then `{a: 7}` to the family of `dbC4` leaves the stored mean for
key `a` at `5 + (7 - 5)/2 = 6`, while the full arithmetic mean recomputed
over all values contributed for `a` is `7`.  The incremental divisor counts
all samples, not the samples containing the key, so the claimed equivalence
fails for heterogeneous key sets. -/
theorem c4_counterexample :
    ((addMany dbC4 "fam" [[("b", 1)], [("a", 7)]]).families.map
        (fun f => f.features_mean.lookup "a")) = [some 6]
    ∧ fullRecomputeMean [[("b", 1)], [("a", 7)]] "a" = some 7
    ∧ (6 : ℚ) ≠ 7 := by
  refine ⟨?_, ?_, by norm_num⟩
  · have h1 : ("fam" == "fam") = true := by decide
    have h2 : ("b" == "a") = false := by decide
    have h3 : ("a" == "a") = true := by decide
    have h4 : ("a" == "b") = false := by decide
    simp [addMany, add_sample, updateFirst, updFamily, dictStep, setKey, dbC4,
      famC4, List.lookup, h1, h2, h3, h4]
    norm_num
  · have h2 : ("b" == "a") = false := by decide
    have h3 : ("a" == "a") = true := by decide
    simp [fullRecomputeMean, List.lookup, h2, h3]

/-- Claim C4 as amended (proved): for an existing family, `add_sample`
updates each key shared between the sample and the stored mean by
`mean + (value - mean) / (n + 1)`, inserts sample-only keys as-is, and
increments `sample_count` (these in-memory mutations happen even though the
call itself then fails on the `datetime` bug).  The incremental mean equals
the full arithmetic recompute over the contributed values of a key provided
the family starts at `sample_count = 0` and every contributed sample
contains that key — the qualification the counterexample forces. -/
theorem c4_incremental_mean :
    (∀ (db : DB) (name : String) (fam : Family) (s : FeatVec) (k : String) (v old : ℚ),
      db.families.find? (fun f => f.name == name) = some fam →
      s.lookup k = some v → (s.map Prod.fst).Nodup →
      fam.features_mean.lookup k = some old →
      ∃ fam', (add_sample db name s).2.1.families.find? (fun f => f.name == name) = some fam'
        ∧ fam'.sample_count = fam.sample_count + 1
        ∧ fam'.features_mean.lookup k
            = some (old + (v - old) / ((fam.sample_count : ℚ) + 1)))
    ∧ (∀ (db : DB) (name : String) (fam : Family) (s : FeatVec) (k : String) (v : ℚ),
      db.families.find? (fun f => f.name == name) = some fam →
      s.lookup k = some v → (s.map Prod.fst).Nodup →
      fam.features_mean.lookup k = none →
      ∃ fam', (add_sample db name s).2.1.families.find? (fun f => f.name == name) = some fam'
        ∧ fam'.sample_count = fam.sample_count + 1
        ∧ fam'.features_mean.lookup k = some v)
    ∧ (∀ (db : DB) (name : String) (fam : Family) (samples : List FeatVec) (k : String) (m : ℚ),
      db.families.find? (fun f => f.name == name) = some fam →
      fam.sample_count = 0 →
      fam.features_mean.lookup k = some m →
      (∀ s ∈ samples, ∃ v, s.lookup k = some v) →
      (∀ s ∈ samples, (s.map Prod.fst).Nodup) →
      samples ≠ [] →
      ∃ fam', (addMany db name samples).families.find? (fun f => f.name == name) = some fam'
        ∧ fam'.sample_count = samples.length
        ∧ fam'.features_mean.lookup k = fullRecomputeMean samples k) := by
  refine ⟨?_, ?_, ?_⟩
  · intro db name fam s k v old hfind hv hnd hold
    refine ⟨updFamily fam s, add_sample_find db name s fam hfind, rfl, ?_⟩
    exact foldl_dictStep_lookup_shared fam.sample_count k s v fam.features_mean old hv hnd hold
  · intro db name fam s k v hfind hv hnd hnone
    refine ⟨updFamily fam s, add_sample_find db name s fam hfind, rfl, ?_⟩
    exact foldl_dictStep_lookup_new fam.sample_count k s v fam.features_mean hv hnd hnone
  · intro db name fam samples k m hfind h0 hm hk hnd hne
    refine ⟨samples.foldl updFamily fam, addMany_find name samples db fam hfind, ?_, ?_⟩
    · have := (foldl_updFamily_mean k samples fam m hm hk hnd).1
      rw [this, h0, Nat.zero_add]
    · obtain ⟨r, hr, hreq⟩ := (foldl_updFamily_mean k samples fam m hm hk hnd).2
      rw [h0] at hreq
      push_cast at hreq
      have hlen0 : samples.length ≠ 0 := fun h => hne (List.length_eq_zero.mp h)
      have hlenQ : ((samples.length : ℚ)) ≠ 0 := by
        exact_mod_cast hlen0
      have hrval : r = (samples.filterMap (fun s => s.lookup k)).sum / samples.length := by
        field_simp
        linarith [hreq]
      have hfm : fullRecomputeMean samples k
          = some ((samples.filterMap (fun s => s.lookup k)).sum / samples.length) := by
        unfold fullRecomputeMean
        have hfl := filterMap_lookup_length k samples hk
        have hie : (samples.filterMap (fun s => s.lookup k)).isEmpty = false := by
          cases hfm : samples.filterMap (fun s => s.lookup k) with
          | nil => exact absurd (by rw [← hfl, hfm]; rfl) hlen0
          | cons a t => rfl
        simp [hie, hfl]
      rw [hr, hfm, hrval]

/-- Witness for C4's amended theorem, instantiating all three conjuncts on a
concrete database: the family of `dbC4` (prior mean `{a: 5}`, count 0)
receives samples containing key `a` (shared-key update, full-recompute
equality) and key `b` (insert-as-is). -/
theorem c4_incremental_mean_witness :
    (∃ fam', (add_sample dbC4 "fam" [("a", 7)]).2.1.families.find?
          (fun f => f.name == "fam") = some fam'
        ∧ fam'.sample_count = famC4.sample_count + 1
        ∧ fam'.features_mean.lookup "a"
            = some (5 + (7 - 5) / ((famC4.sample_count : ℚ) + 1)))
    ∧ (∃ fam', (add_sample dbC4 "fam" [("b", 3)]).2.1.families.find?
          (fun f => f.name == "fam") = some fam'
        ∧ fam'.sample_count = famC4.sample_count + 1
        ∧ fam'.features_mean.lookup "b" = some 3)
    ∧ (∃ fam', (addMany dbC4 "fam" [[("a", 1)], [("a", 2)]]).families.find?
          (fun f => f.name == "fam") = some fam'
        ∧ fam'.sample_count = ([[("a", (1:ℚ))], [("a", 2)]].length : ℕ)
        ∧ fam'.features_mean.lookup "a"
            = fullRecomputeMean [[("a", 1)], [("a", 2)]] "a") := by
  have hfind : dbC4.families.find? (fun f => f.name == "fam") = some famC4 := by
    decide
  refine ⟨?_, ?_, ?_⟩
  · exact c4_incremental_mean.1 dbC4 "fam" famC4 [("a", 7)] "a" 7 5 hfind
      (by decide) (by decide) (by decide)
  · exact c4_incremental_mean.2.1 dbC4 "fam" famC4 [("b", 3)] "b" 3 hfind
      (by decide) (by decide) (by decide)
  · refine c4_incremental_mean.2.2 dbC4 "fam" famC4 [[("a", 1)], [("a", 2)]] "a" 5 hfind
      rfl (by decide) ?_ ?_ (by simp)
    · intro s hs
      simp only [List.mem_cons, List.not_mem_nil, or_false] at hs
      rcases hs with h | h
      · subst h; exact ⟨1, by decide⟩
      · subst h; exact ⟨2, by decide⟩
    · intro s hs
      simp only [List.mem_cons, List.not_mem_nil, or_false] at hs
      rcases hs with h | h
      · subst h; decide
      · subst h; decide

/-- Claim C3 (confirmed): when the fingerprints file is missing or its content
fails to parse, construction does not raise (`load` is total over those file
states), and it yields and persists exactly the three documented seed
families with their fixed prior means and zero sample counts. -/
theorem c3_load_defaults (fs : FileState)
    (h : fs = FileState.missing ∨ fs = FileState.corrupt) :
    load fs = (defaultDB, [defaultDB])
    ∧ (load fs).1.families.map Family.name
        = ["faceswap_blend", "diffusion_inpaint", "stylegan_family"]
    ∧ (∀ f ∈ (load fs).1.families, f.sample_count = 0 ∧ f.last_updated = none)
    ∧ (load fs).1.families.map Family.features_mean
        = [ [("fft_high_ratio", 62/100), ("ela_mean", 18), ("lap_var", 120), ("jpeg_score", 55/100)]
          , [("fft_high_ratio", 68/100), ("ela_mean", 12), ("lap_var", 160), ("jpeg_score", 35/100)]
          , [("fft_high_ratio", 75/100), ("ela_mean", 95/10), ("lap_var", 180), ("jpeg_score", 4/10)] ] := by
  have hl : load fs = (defaultDB, [defaultDB]) := by
    rcases h with h | h <;> subst h <;> rfl
  refine ⟨hl, ?_, ?_, ?_⟩
  · rw [hl]; rfl
  · rw [hl]
    intro f hf
    simp only [defaultDB, List.mem_cons, List.not_mem_nil, or_false] at hf
    rcases hf with h | h | h <;> subst h <;> exact ⟨rfl, rfl⟩
  · rw [hl]; rfl

/-- Witness for C3 at the concrete file state `missing`. -/
theorem c3_load_defaults_witness :
    load FileState.missing = (defaultDB, [defaultDB])
    ∧ (load FileState.missing).1.families.map Family.name
        = ["faceswap_blend", "diffusion_inpaint", "stylegan_family"]
    ∧ (∀ f ∈ (load FileState.missing).1.families, f.sample_count = 0 ∧ f.last_updated = none)
    ∧ (load FileState.missing).1.families.map Family.features_mean
        = [ [("fft_high_ratio", 62/100), ("ela_mean", 18), ("lap_var", 120), ("jpeg_score", 55/100)]
          , [("fft_high_ratio", 68/100), ("ela_mean", 12), ("lap_var", 160), ("jpeg_score", 35/100)]
          , [("fft_high_ratio", 75/100), ("ela_mean", 95/10), ("lap_var", 180), ("jpeg_score", 4/10)] ] :=
  c3_load_defaults FileState.missing (Or.inl rfl)

/-! ## AttributionIndex.match

`match` computes, per family, the cosine similarity of the query and the
family mean restricted to their shared keys, each Euclidean norm floored by
adding `1e-8`; families without shared keys are skipped, results are sorted
by similarity descending with Python's stable `list.sort`, and the top `k`
are returned.  The reals stand in for floats; `math.sqrt` is `Real.sqrt`. -/

/-- `common_keys = [k for k in family_features.keys() if k in feats]`. -/
def commonKeys (family_features : FeatVec) (feats : FeatVec) : List String :=
  (family_features.map Prod.fst).filter (fun k => (feats.lookup k).isSome)

/-- The per-family cosine similarity computed inside `match`. -/
noncomputable def cosineSim (family_features : FeatVec) (feats : FeatVec) : ℝ :=
  let common := commonKeys family_features feats
  let query_vector : List ℝ := common.map (fun k => (((feats.lookup k).getD 0 : ℚ) : ℝ))
  let family_vector : List ℝ :=
    common.map (fun k => (((family_features.lookup k).getD 0 : ℚ) : ℝ))
  let dot_product : ℝ := ((query_vector.zip family_vector).map (fun p => p.1 * p.2)).sum
  let norm_query : ℝ := Real.sqrt ((query_vector.map (fun x => x * x)).sum) + 1e-8
  let norm_family : ℝ := Real.sqrt ((family_vector.map (fun y => y * y)).sum) + 1e-8
  dot_product / (norm_query * norm_family)

/-- The `results` list accumulated by the loop in `match`, in family storage
order: zero-overlap families are skipped. -/
noncomputable def rawResults (db : DB) (feats : FeatVec) : List (String × ℝ) :=
  db.families.filterMap (fun family =>
    if commonKeys family.features_mean feats = [] then none
    else some (family.name, cosineSim family.features_mean feats))

/-- The comparison of `results.sort(key=lambda x: x[1], reverse=True)`:
descending by similarity; Python's sort is stable, as is `mergeSort`. -/
noncomputable def simGE : (String × ℝ) → (String × ℝ) → Bool :=
  fun a b => decide (b.2 ≤ a.2)

/-- `AttributionIndex.match`.  Only reads `self.db`; the state is returned
untouched alongside the top-k list. -/
noncomputable def match' (db : DB) (feats : FeatVec) (topk : ℕ) :
    DB × List (String × ℝ) :=
  (db, if feats.isEmpty then []
       else ((rawResults db feats).mergeSort simGE).take topk)

/-- Claim C10 (confirmed): the query operations `all_families`, `match` and
`get_family_stats` only read `self.db`; the state each returns is exactly the
state it was given, for every database and every query input. -/
theorem c10_queries_do_not_mutate (db : DB) (feats : FeatVec) (topk : ℕ) :
    (all_families db).1 = db ∧ (match' db feats topk).1 = db
    ∧ (get_family_stats db).1 = db :=
  ⟨rfl, rfl, rfl⟩

theorem simGE_trans : ∀ a b c, simGE a b = true → simGE b c = true → simGE a c = true := by
  intro a b c hab hbc
  simp only [simGE, decide_eq_true_eq] at *
  exact le_trans hbc hab

theorem simGE_total : ∀ a b, (simGE a b || simGE b a) = true := by
  intro a b
  simp only [simGE, Bool.or_eq_true, decide_eq_true_eq]
  exact le_total b.2 a.2

theorem lookup_isSome_of_mem_keys :
    ∀ (l : FeatVec) (k : String), k ∈ l.map Prod.fst → (l.lookup k).isSome := by
  intro l
  induction l with
  | nil => intro k h; simp at h
  | cons p rest ih =>
    intro k h
    obtain ⟨k₀, v₀⟩ := p
    by_cases hk : k = k₀
    · subst hk; simp [List.lookup_cons]
    · have hbe : (k == k₀) = false := by simp [hk]
      simp only [List.map_cons, List.mem_cons] at h
      rcases h with h | h
      · exact absurd h hk
      · simp [List.lookup_cons, hbe]
        have := ih k h
        simpa using this

theorem commonKeys_self (l : FeatVec) : commonKeys l l = l.map Prod.fst := by
  unfold commonKeys
  exact List.filter_eq_self.mpr (fun k hk => lookup_isSome_of_mem_keys l k hk)

theorem map_lookup_getD_self :
    ∀ (l : FeatVec), (l.map Prod.fst).Nodup →
      (l.map Prod.fst).map (fun k => ((l.lookup k).getD 0)) = l.map Prod.snd := by
  intro l
  induction l with
  | nil => intro _; rfl
  | cons p rest ih =>
    intro hnd
    obtain ⟨k₀, v₀⟩ := p
    have hrest : ∀ k ∈ rest.map Prod.fst, (((k₀, v₀) :: rest).lookup k).getD 0
        = ((rest.lookup k).getD 0 : ℚ) := by
      intro k hk
      have hkne : k ≠ k₀ := by
        simp only [List.map_cons, List.nodup_cons] at hnd
        intro he
        exact hnd.1 (he ▸ hk)
      have hbe : (k == k₀) = false := by simp [hkne]
      simp [List.lookup_cons, hbe]
    simp only [List.map_cons]
    congr 1
    · simp [List.lookup_cons]
    · rw [List.map_congr_left hrest]
      exact ih (nodup_rest hnd)

theorem zip_self_map (l : List ℝ) :
    ((l.zip l).map (fun p => p.1 * p.2)) = l.map (fun x => x * x) := by
  induction l with
  | nil => rfl
  | cons x xs ih => simp [List.zip_cons_cons, ih]

/-- For a query identical to the family's stored mean, both restricted
vectors coincide with the stored values, and the similarity collapses to
`S / (sqrt S + 1e-8)^2` for `S` the sum of squared values. -/
theorem cosineSim_self (feats : FeatVec) (hnd : (feats.map Prod.fst).Nodup) :
    cosineSim feats feats
      = ((feats.map (fun p => ((p.2 : ℝ)) * ((p.2 : ℝ)))).sum)
        / ((Real.sqrt ((feats.map (fun p => ((p.2 : ℝ)) * ((p.2 : ℝ)))).sum) + 1e-8)
          * (Real.sqrt ((feats.map (fun p => ((p.2 : ℝ)) * ((p.2 : ℝ)))).sum) + 1e-8)) := by
  have hq : (feats.map Prod.fst).map (fun k => (((feats.lookup k).getD 0 : ℚ) : ℝ))
      = (feats.map Prod.snd).map (fun v : ℚ => ((v : ℚ) : ℝ)) := by
    have := congrArg (List.map (fun v : ℚ => ((v : ℚ) : ℝ))) (map_lookup_getD_self feats hnd)
    simpa [List.map_map, Function.comp] using this
  simp only [cosineSim, commonKeys_self, hq, zip_self_map, List.map_map]
  rfl

/-- The two numeric bounds behind the amended identical-vector clause: with
the `1e-8` norm floor, the self-similarity lies in `[1 - 1e-5, 1]` as soon as
the squared norm is at least `1e-4`. -/
theorem selfSim_bounds (S : ℝ) (h0 : 0 ≤ S) (hS : 1/10000 ≤ S) :
    1 - 1/100000 ≤ S / ((Real.sqrt S + 1e-8) * (Real.sqrt S + 1e-8))
    ∧ S / ((Real.sqrt S + 1e-8) * (Real.sqrt S + 1e-8)) ≤ 1 := by
  set t := Real.sqrt S with ht
  have ht0 : 0 ≤ t := Real.sqrt_nonneg S
  have ht2 : t * t = S := Real.mul_self_sqrt h0
  have htlb : 1/100 ≤ t := by
    rw [ht]
    have : Real.sqrt (1/10000) ≤ Real.sqrt S := Real.sqrt_le_sqrt hS
    calc (1 : ℝ)/100 = Real.sqrt (1/10000) := by
          rw [show (1 : ℝ)/10000 = (1/100)^2 by norm_num, Real.sqrt_sq (by norm_num)]
      _ ≤ Real.sqrt S := this
  have hε : (1e-8 : ℝ) = 1/100000000 := by norm_num
  have hden : 0 < (t + 1e-8) * (t + 1e-8) := by
    have : (0 : ℝ) < t + 1e-8 := by rw [hε]; linarith
    exact mul_pos this this
  constructor
  · rw [le_div_iff₀ hden, hε]
    nlinarith [htlb, ht2, ht0]
  · rw [div_le_one hden, hε]
    nlinarith [ht2, ht0]

/-- A zero-vector family and the identical zero query: the floored norms make
the similarity 0, not 1. -/
def zeroFam : Family :=
  { name := "zfam", features_mean := [("a", 0)], sample_count := 0, last_updated := none }

def zeroDB : DB := { version := 1, families := [zeroFam] }

/-- Claim C2, counterexample to the claim as stated: for the query `{a: 0}`
identical to the stored mean of the only family, `match` returns similarity
`0` — not `1.0` within any floating tolerance (off by 1).  The `1e-8` norm
floor means self-similarity approaches 1 only for vectors whose norm is
large against `1e-8`. -/
theorem c2_counterexample :
    (match' zeroDB [("a", 0)] 3).2 = [("zfam", 0)]
    ∧ ¬ ((1 : ℝ) - 1/1000 ≤ 0) := by
  constructor
  · have hsim : cosineSim zeroFam.features_mean [("a", 0)] = 0 := by
      simp [cosineSim, commonKeys, zeroFam, List.lookup]
    have hck : commonKeys zeroFam.features_mean [("a", 0)] = ["a"] := by
      simp [commonKeys, zeroFam, List.lookup]
    have hname : zeroFam.name = "zfam" := rfl
    have hraw : rawResults zeroDB [("a", 0)] = [("zfam", 0)] := by
      simp [rawResults, zeroDB, hck, hsim, hname]
    simp [match', hraw, List.mergeSort_singleton]
  · norm_num

/-- Claim C2 as amended (proved): `match` returns at most `topK` results,
sorted by descending similarity; an empty query yields an empty result;
every returned pair is a family with shared keys carrying its cosine
similarity over those shared keys (so zero-overlap families are skipped, and
no overlap at all yields an empty result); equal similarities keep the
original family storage order (stability of the sort); and the
identical-vector similarity is `1.0` within `1e-5` *provided* the vector's
squared norm is at least `1e-4` — the qualification the zero-vector
counterexample forces — while never exceeding `1`. -/
theorem c2_match_spec :
    (∀ (db : DB) (feats : FeatVec) (topk : ℕ),
      (match' db feats topk).2.length ≤ topk)
    ∧ (∀ (db : DB) (feats : FeatVec) (topk : ℕ),
      (match' db feats topk).2.Pairwise (fun a b => b.2 ≤ a.2))
    ∧ (∀ (db : DB) (topk : ℕ), (match' db [] topk).2 = [])
    ∧ (∀ (db : DB) (feats : FeatVec) (topk : ℕ) (p : String × ℝ),
      p ∈ (match' db feats topk).2 →
      ∃ fam ∈ db.families, fam.name = p.1
        ∧ commonKeys fam.features_mean feats ≠ []
        ∧ p.2 = cosineSim fam.features_mean feats)
    ∧ (∀ (db : DB) (feats : FeatVec) (topk : ℕ),
      (∀ fam ∈ db.families, commonKeys fam.features_mean feats = []) →
      (match' db feats topk).2 = [])
    ∧ (∀ (db : DB) (feats : FeatVec) (a b : String × ℝ),
      [a, b].Sublist (rawResults db feats) → b.2 ≤ a.2 →
      [a, b].Sublist ((rawResults db feats).mergeSort simGE))
    ∧ (∀ feats : FeatVec, (feats.map Prod.fst).Nodup →
      1/10000 ≤ ((feats.map (fun p => ((p.2 : ℝ)) * ((p.2 : ℝ)))).sum) →
      1 - 1/100000 ≤ cosineSim feats feats ∧ cosineSim feats feats ≤ 1) := by
  refine ⟨?_, ?_, ?_, ?_, ?_, ?_, ?_⟩
  · intro db feats topk
    unfold match'
    cases hf : feats.isEmpty
    · simp only [Bool.false_eq_true, if_false]
      exact le_trans (le_of_eq (List.length_take _ _)) (min_le_left _ _)
    · simp
  · intro db feats topk
    unfold match'
    cases hf : feats.isEmpty
    · simp only [Bool.false_eq_true, if_false]
      have hsorted := List.sorted_mergeSort simGE_trans simGE_total (rawResults db feats)
      have hsorted' : ((rawResults db feats).mergeSort simGE).Pairwise
          (fun a b => b.2 ≤ a.2) :=
        hsorted.imp (fun h => by simpa [simGE, decide_eq_true_eq] using h)
      exact hsorted'.sublist (List.take_sublist _ _)
    · simp
  · intro db topk
    unfold match'
    rfl
  · intro db feats topk p hp
    unfold match' at hp
    rcases hf : feats.isEmpty with _ | _
    · rw [hf] at hp
      simp only [Bool.false_eq_true, if_false] at hp
      have hp1 : p ∈ (rawResults db feats).mergeSort simGE := List.take_subset _ _ hp
      have hp2 : p ∈ rawResults db feats :=
        (List.mergeSort_perm (rawResults db feats) simGE).mem_iff.mp hp1
      obtain ⟨fam, hfam, hif⟩ := List.mem_filterMap.mp hp2
      by_cases hck : commonKeys fam.features_mean feats = []
      · rw [if_pos hck] at hif; exact absurd hif (by simp)
      · rw [if_neg hck] at hif
        injection hif with hif
        exact ⟨fam, hfam, by rw [← hif], hck, by rw [← hif]⟩
    · rw [hf] at hp
      simp at hp
  · intro db feats topk hall
    unfold match'
    cases hf : feats.isEmpty
    · simp only [Bool.false_eq_true, if_false]
      have hraw : rawResults db feats = [] := by
        unfold rawResults
        exact List.filterMap_eq_nil_iff.mpr (fun fam hfam => by rw [if_pos (hall fam hfam)])
      rw [hraw, List.mergeSort_nil, List.take_nil]
    · simp
  · intro db feats a b hsub hle
    refine List.sublist_mergeSort simGE_trans simGE_total ?_ hsub
    refine List.pairwise_cons.mpr ⟨?_, List.pairwise_singleton _ _⟩
    intro c hc
    simp only [List.mem_singleton] at hc
    subst hc
    simp [simGE, hle]
  · intro feats hnd hS
    rw [cosineSim_self feats hnd]
    have h0 : 0 ≤ (feats.map (fun p => ((p.2 : ℝ)) * ((p.2 : ℝ)))).sum :=
      List.sum_nonneg (fun x hx => by
        obtain ⟨p, _, hpx⟩ := List.mem_map.mp hx
        rw [← hpx]; exact mul_self_nonneg _)
    exact selfSim_bounds _ h0 hS

/-- A two-family database whose families tie at similarity 0, used to
witness the stability clause. -/
def tieDB : DB :=
  { version := 1
    families :=
      [ { name := "f1", features_mean := [("a", 0)], sample_count := 0, last_updated := none }
      , { name := "f2", features_mean := [("a", 0)], sample_count := 0, last_updated := none } ] }

theorem tieDB_raw : rawResults tieDB [("a", 0)] = [("f1", 0), ("f2", 0)] := by
  have hck : commonKeys [("a", (0:ℚ))] [("a", (0:ℚ))] = ["a"] := by
    simp [commonKeys, List.lookup]
  have hsim : cosineSim [("a", (0:ℚ))] [("a", (0:ℚ))] = 0 := by
    simp [cosineSim, commonKeys, List.lookup]
  simp [rawResults, tieDB, hck, hsim]

/-- Witness for C2's amended theorem, instantiating every conjunct: the
one-family database `zeroDB` for the structural clauses, the tied two-family
database for stability, and the unit query `{a: 1}` (squared norm 1) for the
identical-vector clause. -/
theorem c2_match_spec_witness :
    (match' zeroDB [("a", 1)] 2).2.length ≤ 2
    ∧ (match' zeroDB [("a", 1)] 2).2.Pairwise (fun a b => b.2 ≤ a.2)
    ∧ (match' zeroDB [] 2).2 = []
    ∧ (match' { version := 1, families := [] } [("a", 1)] 2).2 = []
    ∧ [(("f1", (0 : ℝ))), ("f2", 0)].Sublist
        ((rawResults tieDB [("a", 0)]).mergeSort simGE)
    ∧ (1 - 1/100000 ≤ cosineSim [("a", 1)] [("a", 1)]
        ∧ cosineSim [("a", 1)] [("a", 1)] ≤ 1) := by
  refine ⟨c2_match_spec.1 zeroDB [("a", 1)] 2,
    c2_match_spec.2.1 zeroDB [("a", 1)] 2,
    c2_match_spec.2.2.1 zeroDB 2,
    c2_match_spec.2.2.2.2.1 { version := 1, families := [] } [("a", 1)] 2
      (fun fam hfam => absurd hfam (by simp)),
    c2_match_spec.2.2.2.2.2.1 tieDB [("a", 0)] ("f1", 0) ("f2", 0)
      (by rw [tieDB_raw]) le_rfl,
    c2_match_spec.2.2.2.2.2.2 [("a", 1)] (by simp) (by norm_num)⟩

/-! ## Heuristic scorer (backend/src/models/detector.py)

`HeuristicDetector.score` reads four feature keys from the input dict and
four weights, combines them linearly, applies `1/(1+exp(-steepness*(x-threshold)))`
and `np.clip(s, 0.0, 1.0)`.  A missing key raises `KeyError`, caught by the
method's `except Exception`, which returns the neutral score `0.5`; the
fallback branch of the `match` below is that handler. -/

/-- The `HEURISTIC_WEIGHTS` configuration dict (backend/src/config.py). -/
structure Weights where
  fft_weight : ℚ
  ela_weight : ℚ
  lap_weight : ℚ
  jpeg_weight : ℚ
  threshold : ℚ
  steepness : ℚ
deriving DecidableEq

/-- Default heuristic weights from `config.py` (env overrides absent). -/
def HEURISTIC_WEIGHTS : Weights :=
  { fft_weight := 9/10, ela_weight := 6/10, lap_weight := 2/10,
    jpeg_weight := 15/100, threshold := 7/10, steepness := 4 }

/-- `HeuristicDetector.score`. -/
noncomputable def score (w : Weights) (feats : FeatVec) : ℝ :=
  match feats.lookup "fft_high_ratio", feats.lookup "ela_mean",
        feats.lookup "lap_var", feats.lookup "jpeg_score" with
  | some fft, some ela, some lap, some jq =>
    let x : ℝ := (w.fft_weight : ℝ) * (fft : ℝ)
      + (w.ela_weight : ℝ) * ((ela : ℝ) / 50)
      + (w.lap_weight : ℝ) * ((lap : ℝ) / 200)
      - (w.jpeg_weight : ℝ) * (jq : ℝ)
    let s : ℝ := 1 / (1 + Real.exp (-((w.steepness : ℝ)) * (x - (w.threshold : ℝ))))
    min 1 (max 0 s)
  | _, _, _, _ => 1/2

/-- Claim C5 (confirmed): for every weight configuration and feature dict the
heuristic score lies in `[0, 1]` (the sigmoid output is clamped by
`np.clip`), and whenever any of the four required feature keys is missing the
`KeyError` handler returns the neutral score `0.5`. -/
theorem c5_score_bounds_and_neutral :
    (∀ (w : Weights) (feats : FeatVec), 0 ≤ score w feats ∧ score w feats ≤ 1)
    ∧ (∀ (w : Weights) (feats : FeatVec),
        (feats.lookup "fft_high_ratio" = none ∨ feats.lookup "ela_mean" = none
          ∨ feats.lookup "lap_var" = none ∨ feats.lookup "jpeg_score" = none) →
        score w feats = 1/2) := by
  constructor
  · intro w feats
    unfold score
    rcases feats.lookup "fft_high_ratio" with _ | fft <;>
    rcases feats.lookup "ela_mean" with _ | ela <;>
    rcases feats.lookup "lap_var" with _ | lap <;>
    rcases feats.lookup "jpeg_score" with _ | jq <;>
    exact ⟨by norm_num, by norm_num⟩
  · intro w feats h
    unfold score
    rcases h1 : feats.lookup "fft_high_ratio" with _ | fft <;>
    rcases h2 : feats.lookup "ela_mean" with _ | ela <;>
    rcases h3 : feats.lookup "lap_var" with _ | lap <;>
    rcases h4 : feats.lookup "jpeg_score" with _ | jq <;>
    first
      | rfl
      | (rcases h with h | h | h | h <;> simp_all)

/-- Witness for C5: the default weights with a fully populated feature dict
stay in `[0, 1]`, and the empty feature dict gets the neutral `0.5`. -/
theorem c5_score_witness :
    (0 ≤ score HEURISTIC_WEIGHTS
        [("fft_high_ratio", 7/10), ("ela_mean", 15), ("lap_var", 150), ("jpeg_score", 2/5)]
      ∧ score HEURISTIC_WEIGHTS
        [("fft_high_ratio", 7/10), ("ela_mean", 15), ("lap_var", 150), ("jpeg_score", 2/5)] ≤ 1)
    ∧ score HEURISTIC_WEIGHTS [] = 1/2 :=
  ⟨c5_score_bounds_and_neutral.1 HEURISTIC_WEIGHTS _,
   c5_score_bounds_and_neutral.2 HEURISTIC_WEIGHTS [] (Or.inl rfl)⟩

/-! ## Quality gate (backend/src/ingest/filtering.py) -/

/-- Default `FACE_CONFIDENCE_THRESHOLD` from `config.py`. -/
def FACE_CONFIDENCE_THRESHOLD : ℚ := 9/10

/-- Default `QUALITY_MIN_SIDE` from `config.py`. -/
def QUALITY_MIN_SIDE : ℤ := 224

/-- The `QualityFlags` dataclass. -/
structure QualityFlags where
  face_found : Bool
  face_conf : ℚ
  width : ℤ
  height : ℤ
  min_side_ok : Bool
  notes : List String
deriving DecidableEq

/-- `accept_image`.  The configured face-confidence threshold is passed
explicitly (the source reads the module constant); `min_side` is the resolved
minimum-side threshold (`QUALITY_MIN_SIDE` when the caller passes `None`).
Notes are appended in source order: min-side, no-face, low-confidence. -/
def accept_image (thr : ℚ) (face_found : Bool) (face_conf : ℚ)
    (width height : ℤ) (min_side : ℤ) : Bool × QualityFlags :=
  let min_side_ok : Bool := decide (min_side ≤ min width height)
  let notes : List String :=
    (if min_side_ok then [] else [s!"min_side<{min_side}"])
    ++ (if face_found then [] else ["no_face_found"])
    ++ (if face_found ∧ face_conf < thr then [s!"low_face_conf<{thr}"] else [])
  let accept : Bool := face_found && decide (thr ≤ face_conf) && min_side_ok
  (accept, { face_found := face_found, face_conf := face_conf, width := width,
             height := height, min_side_ok := min_side_ok, notes := notes })

/-- Claim C6 (confirmed): the gate accepts exactly when a face was found, its
confidence reaches the configured threshold, and the smaller image side
reaches the minimum-side threshold; the full flag set is returned, each
failed criterion contributes its diagnostic note, and an accepted image has
no notes at all. -/
theorem c6_accept_image_spec (thr : ℚ) (face_found : Bool) (conf : ℚ)
    (w h ms : ℤ) :
    ((accept_image thr face_found conf w h ms).1
        = (face_found && decide (thr ≤ conf) && decide (ms ≤ min w h)))
    ∧ (accept_image thr face_found conf w h ms).2.face_found = face_found
    ∧ (accept_image thr face_found conf w h ms).2.face_conf = conf
    ∧ (accept_image thr face_found conf w h ms).2.width = w
    ∧ (accept_image thr face_found conf w h ms).2.height = h
    ∧ ((accept_image thr face_found conf w h ms).2.min_side_ok
        = decide (ms ≤ min w h))
    ∧ (¬ ms ≤ min w h →
        s!"min_side<{ms}" ∈ (accept_image thr face_found conf w h ms).2.notes)
    ∧ (face_found = false →
        "no_face_found" ∈ (accept_image thr face_found conf w h ms).2.notes)
    ∧ (face_found = true → conf < thr →
        s!"low_face_conf<{thr}" ∈ (accept_image thr face_found conf w h ms).2.notes)
    ∧ ((accept_image thr face_found conf w h ms).1 = true
        → (accept_image thr face_found conf w h ms).2.notes = []) := by
  unfold accept_image
  by_cases hms : ms ≤ min w h <;> by_cases hconf : thr ≤ conf <;>
    cases face_found <;>
    simp_all [not_le, le_of_lt, not_lt.mpr]

/-- Witness for C6, covering the spec's four reference calls: accepted clean
image (no notes), missing face, low confidence, too-small image. -/
theorem c6_accept_image_witness :
    ((accept_image (9/10) true (19/20) 512 512 224).1 = true
      ∧ (accept_image (9/10) true (19/20) 512 512 224).2.notes = [])
    ∧ "no_face_found" ∈ (accept_image (9/10) false 0 512 512 224).2.notes
    ∧ s!"low_face_conf<{(9/10 : ℚ)}" ∈ (accept_image (9/10) true (1/2) 512 512 224).2.notes
    ∧ s!"min_side<{(224 : ℤ)}" ∈ (accept_image (9/10) true (19/20) 100 100 224).2.notes := by
  have hacc : (accept_image (9/10) true (19/20) 512 512 224).1 = true := by
    rw [(c6_accept_image_spec (9/10) true (19/20) 512 512 224).1]
    norm_num [Bool.and_eq_true, decide_eq_true_eq]
  refine ⟨⟨hacc, ?_⟩, ?_, ?_, ?_⟩
  · exact (c6_accept_image_spec (9/10) true (19/20) 512 512 224).2.2.2.2.2.2.2.2.2 hacc
  · exact (c6_accept_image_spec (9/10) false 0 512 512 224).2.2.2.2.2.2.2.1 rfl
  · exact (c6_accept_image_spec (9/10) true (1/2) 512 512 224).2.2.2.2.2.2.2.2.1 rfl
      (by norm_num)
  · exact (c6_accept_image_spec (9/10) true (19/20) 100 100 224).2.2.2.2.2.2.1
      (by norm_num)

/-! ## Error-level analysis (backend/src/utils/ela.py)

An image is a list of channels, each a list of pixel values; the JPEG
re-encoder is an opaque parameter (its output is only ever compared
pixelwise).  `ImageChops.difference` is the per-pixel absolute difference;
`getextrema` yields each channel's maximum; `ImageEnhance.Brightness(...)
.enhance(255.0/scale)` multiplies every pixel by `255/scale`, clipping at the
8-bit ceiling (integer rounding is abstracted away — the inputs used below
make it exact).  The input image is never written to: the function builds a
re-encoded copy and fresh difference images. -/

abbrev Img := List (List ℚ)

/-- `np.mean` over all channels and pixels. -/
def meanAll (im : Img) : ℚ :=
  (im.map List.sum).sum / ((im.map List.length).sum : ℚ)

/-- `error_level_analysis(im, quality)`: re-encode, difference, normalize the
difference for visualization, and return (ELA image, mean of the absolute
values of the *normalized* image).  `scale` starts at 1 and takes each
channel's maximum, so the `if scale > 0` guard in the source is always
taken. -/
def error_level_analysis (encode : Img → Img) (im : Img) : Img × ℚ :=
  let recompressed := encode im
  let diff : Img :=
    List.zipWith (fun c1 c2 => List.zipWith (fun a b => |a - b|) c1 c2) im recompressed
  let scale : ℚ := diff.foldl (fun sc ch => max sc (ch.foldl max 0)) 1
  let ela : Img := diff.map (fun ch => ch.map (fun p => min 255 (p * (255 / scale))))
  (ela, meanAll (ela.map (fun ch => ch.map (fun p => |p|))))

/-- Modelled from the spec (§4.1): the mean absolute pixelwise difference
between the original image and its re-encoded copy, over all channels and
pixels — the scalar the spec says the extractor returns. -/
def meanAbsDiff (encode : Img → Img) (im : Img) : ℚ :=
  meanAll (List.zipWith (fun c1 c2 => List.zipWith (fun a b => |a - b|) c1 c2)
    im (encode im))

/-- Claim C7 (refuted; code bug): the returned scalar is computed from the
difference image *after* the `# Normalize for visualization` brightness
scaling, not from the raw difference.  For a one-pixel image with value 10
whose re-encoding is 0, the raw mean absolute difference is 10, but the
function returns 255 (the pixel is scaled by `255/scale` with `scale = 10`). -/
theorem c7_ela_mean_after_normalization :
    (error_level_analysis (fun _ => [[0]]) [[10]]).2 = 255
    ∧ meanAbsDiff (fun _ => [[0]]) [[10]] = 10
    ∧ (255 : ℚ) ≠ 10 := by
  refine ⟨?_, ?_, by norm_num⟩
  · norm_num [error_level_analysis, meanAll]
  · norm_num [meanAbsDiff, meanAll]

/-! ## Batch orchestrator (backend/src/api/batch_processor.py)

`process_batch` assigns ids to the images, submits one task per image to the
worker pool, and `asyncio.gather` collects completed tasks back into task
order.  The embedding makes the scheduling explicit: `order` is the order in
which the pool happens to finish the tasks; `asyncio.gather` is the indexed
collection step that matches results back to input positions.  The id
generator (`uuid4`) is abstracted as the given id list.  The per-image
pipeline (face detector, heuristic and torch detectors) is the opaque
function `pipe`; `Except.error` is a pipeline that raised. -/

/-- The per-item result dict produced by `_process_single_image`. -/
structure BatchResult (β : Type) where
  id : String
  success : Bool
  error : Option String
  payload : Option β
deriving DecidableEq

/-- `BatchProcessor._process_single_image`: runs the pipeline inside a
`try/except`, so it always returns a result dict — success payload or
`{id, success: False, error}`. -/
def processSingleImage {α β : Type} (pipe : α → Except String β)
    (d : String × α) : BatchResult β :=
  match pipe d.2 with
  | Except.ok payload =>
    { id := d.1, success := true, error := none, payload := some payload }
  | Except.error e =>
    { id := d.1, success := false, error := some e, payload := none }

/-- `BatchProcessor.process_batch`: tasks finish in `order`; gather returns
results in task index order (the fallback branch is unreachable when every
task completes exactly once, i.e. when `order` is a permutation of the task
indices). -/
def process_batch {α β : Type} (pipe : α → Except String β) (ids : List String)
    (images : List α) (order : List ℕ) : List (BatchResult β) :=
  if images.isEmpty then [] else
  let image_data := ids.zip images
  let completions :=
    order.filterMap (fun i => (image_data[i]?).map (fun d => (i, processSingleImage pipe d)))
  (List.range image_data.length).map (fun i =>
    match completions.find? (fun c => c.1 == i) with
    | some c => c.2
    | none => { id := "", success := false, error := some "missing", payload := none })

theorem zip_getElem?_of_some {α β : Type} :
    ∀ (l1 : List α) (l2 : List β) (i : ℕ) (a : α) (b : β),
      l1[i]? = some a → l2[i]? = some b → (l1.zip l2)[i]? = some (a, b) := by
  intro l1
  induction l1 with
  | nil => intro l2 i a b h; simp at h
  | cons x xs ih =>
    intro l2 i a b h1 h2
    cases l2 with
    | nil => simp at h2
    | cons y ys =>
      cases i with
      | zero =>
        simp at h1 h2
        simp [List.zip_cons_cons, h1, h2]
      | succ n =>
        simp only [List.getElem?_cons_succ] at h1 h2
        simpa [List.zip_cons_cons] using ih ys n a b h1 h2

/-- The collected result at index `j` is determined by item `j` alone,
whenever the completion order covers each index once. -/
theorem process_batch_getElem {α β : Type} (pipe : α → Except String β)
    (ids : List String) (images : List α) (order : List ℕ)
    (hlen : ids.length = images.length)
    (hperm : order.Perm (List.range images.length))
    (j : ℕ) (idj : String) (img : α)
    (hid : ids[j]? = some idj) (himg : images[j]? = some img) :
    (process_batch pipe ids images order)[j]? = some (processSingleImage pipe (idj, img)) := by
  have hjlt : j < images.length := by
    by_contra hge
    rw [List.getElem?_eq_none (Nat.le_of_not_lt hge)] at himg
    exact Option.noConfusion himg
  have hne : images.isEmpty = false := by
    cases images with
    | nil => simp at hjlt
    | cons _ _ => rfl
  have hdata : (ids.zip images)[j]? = some (idj, img) :=
    zip_getElem?_of_some ids images j idj img hid himg
  have hzlen : (ids.zip images).length = images.length := by
    rw [List.length_zip, hlen, Nat.min_self]
  unfold process_batch
  rw [hne]
  simp only [Bool.false_eq_true, if_false]
  set completions :=
    order.filterMap (fun i => ((ids.zip images)[i]?).map (fun d => (i, processSingleImage pipe d)))
    with hcomp
  have hjmem : j ∈ order := hperm.mem_iff.mpr (List.mem_range.mpr hjlt)
  have hcmem : (j, processSingleImage pipe (idj, img)) ∈ completions := by
    rw [hcomp]
    exact List.mem_filterMap.mpr ⟨j, hjmem, by rw [hdata]; rfl⟩
  have hsome : (completions.find? (fun c => c.1 == j)).isSome := by
    exact List.find?_isSome.mpr ⟨_, hcmem, by simp⟩
  obtain ⟨c, hc⟩ := Option.isSome_iff_exists.mp hsome
  have hcmem' : c ∈ completions := List.mem_of_find?_eq_some hc
  have hcfst : c.1 = j := by
    have := List.find?_some hc
    simpa using this
  have hcval : c = (j, processSingleImage pipe (idj, img)) := by
    rw [hcomp] at hcmem'
    obtain ⟨i, _, hmap⟩ := List.mem_filterMap.mp hcmem'
    cases hdi : (ids.zip images)[i]? with
    | none => rw [hdi] at hmap; simp at hmap
    | some d =>
      rw [hdi] at hmap
      simp only [Option.map_some', Option.some.injEq] at hmap
      have hij : i = j := by rw [← hmap] at hcfst; exact hcfst
      subst hij
      rw [hdi] at hdata
      injection hdata with hd
      rw [← hmap, hd]
  have hrange : (List.range (ids.zip images).length)[j]? = some j := by
    rw [List.getElem?_range (by rw [hzlen]; exact hjlt)]
  rw [List.getElem?_map, hrange]
  simp only [Option.map_some', Option.some.injEq]
  rw [hc, hcval]

/-- Claim C8 (confirmed): a batch of `N` images yields exactly `N` results
whose order matches the input order for every completion order of the worker
pool; item `j`'s entry is its own pipeline outcome — `{id, success: False,
error}` when its pipeline raises, the success payload otherwise — so one
item's failure leaves every sibling's result unchanged. -/
theorem c8_batch_order_and_isolation {α β : Type} (pipe : α → Except String β)
    (ids : List String) (images : List α) (order : List ℕ)
    (hlen : ids.length = images.length)
    (hperm : order.Perm (List.range images.length)) :
    (process_batch pipe ids images order).length = images.length
    ∧ (∀ (j : ℕ) (idj : String) (img : α),
        ids[j]? = some idj → images[j]? = some img →
        (process_batch pipe ids images order)[j]?
          = some (processSingleImage pipe (idj, img)))
    ∧ (∀ (j : ℕ) (idj : String) (img : α) (e : String),
        ids[j]? = some idj → images[j]? = some img → pipe img = Except.error e →
        (process_batch pipe ids images order)[j]?
          = some { id := idj, success := false, error := some e, payload := none })
    ∧ (∀ (j : ℕ) (idj : String) (img : α) (b : β),
        ids[j]? = some idj → images[j]? = some img → pipe img = Except.ok b →
        (process_batch pipe ids images order)[j]?
          = some { id := idj, success := true, error := none, payload := some b }) := by
  refine ⟨?_, ?_, ?_, ?_⟩
  · unfold process_batch
    cases him : images.isEmpty
    · simp only [Bool.false_eq_true, if_false, List.length_map, List.length_range,
        List.length_zip, hlen, Nat.min_self]
    · rw [List.isEmpty_iff] at him
      simp [him]
  · intro j idj img hid himg
    exact process_batch_getElem pipe ids images order hlen hperm j idj img hid himg
  · intro j idj img e hid himg hpipe
    rw [process_batch_getElem pipe ids images order hlen hperm j idj img hid himg]
    unfold processSingleImage
    rw [hpipe]
  · intro j idj img b hid himg hpipe
    rw [process_batch_getElem pipe ids images order hlen hperm j idj img hid himg]
    unfold processSingleImage
    rw [hpipe]

/-- The concrete pipeline used by the C8 witness: item value 13 is the
malformed input whose pipeline raises. -/
def pipeC8 : ℕ → Except String ℕ :=
  fun x => if x = 13 then Except.error "bad" else Except.ok x

/-- Witness for C8: three images completed by the pool in order 2, 0, 1;
item 1 is malformed.  The batch still returns three results in input order,
item 1 failed with its error, items 0 and 2 succeeded. -/
theorem c8_batch_witness :
    (process_batch pipeC8 ["a", "b", "c"] [1, 13, 2] [2, 0, 1]).length = 3
    ∧ (process_batch pipeC8 ["a", "b", "c"] [1, 13, 2] [2, 0, 1])[1]?
        = some { id := "b", success := false, error := some "bad", payload := none }
    ∧ (process_batch pipeC8 ["a", "b", "c"] [1, 13, 2] [2, 0, 1])[0]?
        = some { id := "a", success := true, error := none, payload := some 1 }
    ∧ (process_batch pipeC8 ["a", "b", "c"] [1, 13, 2] [2, 0, 1])[2]?
        = some { id := "c", success := true, error := none, payload := some 2 } := by
  have h := c8_batch_order_and_isolation pipeC8 ["a", "b", "c"] [1, 13, 2] [2, 0, 1]
    (by decide) (by decide)
  exact ⟨h.1, h.2.2.1 1 "b" 13 "bad" rfl rfl rfl,
    h.2.2.2 0 "a" 1 1 rfl rfl rfl,
    h.2.2.2 2 "c" 2 2 rfl rfl rfl⟩

end Remorph
